import Mathlib

/-!
Verification of the mcm-agent core: the dispatch engine of `api.ts`
(`withConcurrency`, `sendEmailOne`, `sendCampaign`) and the CRM segmentation
logic of `crm-parser.ts` (`parseSimpleCsv`, `parseContactSegments`,
`addEnumSegments`, `scoreSegment`).

Modelling conventions:
- JavaScript strings are Lean `String`s; the string operations the code uses
  (`trim`, `split`, `toLowerCase`, regex replaces) are embedded as structurally
  recursive functions over the character list, with JS ASCII semantics.
- JavaScript objects used as string-keyed records (`Record<string, string>`)
  are association lists with overwrite-on-assign semantics; `Map` objects are
  association lists with insertion-order keys, as JS `Map` guarantees.
- The async dispatch code is embedded as a small-step transition system on a
  scheduler state (queue / in-flight / completed), reflecting the worker-pool
  structure of `withConcurrency` under the single-threaded event loop: a step
  completes one in-flight task and lets that worker pull the next queued task.
- The external send endpoint (`fetch` inside `sendEmailOne`) is abstracted by
  an outcome oracle giving each task's single attempt result.
-/

namespace Mcm

/-! ## Dispatch engine (api.ts) -/

structure EmailSummary where
  targetGroup : String
  regionalAdaptation : String
  toneDecision : String
  legalConsiderations : String
deriving DecidableEq

structure GeneratedEmail where
  id : String
  subject : String
  htmlContent : String
  summary : EmailSummary
deriving DecidableEq

structure CampaignSendTask where
  email : GeneratedEmail
  recipient : String
  subject : String
deriving DecidableEq

structure FailedEntry where
  recipient : String
  error : String
deriving DecidableEq

/-- Scheduler state of `withConcurrency`: indices of tasks still queued
(`queue`, in submission order), tasks currently being awaited by a worker
(`inflight`), and tasks whose promise has resolved (`done`, in completion
order, mirroring the order of `results.push` / the mutations made by each
job). -/
structure DispatchState where
  queue : List Nat
  inflight : List Nat
  done : List Nat
deriving DecidableEq

/-- State after the synchronous start of `withConcurrency tasks limit` on `K`
tasks: `Math.min(limit, K)` workers have each shifted one task off the queue
and started awaiting it. -/
def initState (limit K : Nat) : DispatchState :=
  { queue := (List.range K).drop (min limit K)
    inflight := (List.range K).take (min limit K)
    done := [] }

/-- One event-loop step of `withConcurrency`: the await of some in-flight task
`i` resolves; its worker records it and (the recursive `runNext` call) shifts
the head of the queue, starting it, if any task is left. -/
inductive DStep : DispatchState → DispatchState → Prop
  | complete (s : DispatchState) (i : Nat) (h : i ∈ s.inflight) :
      DStep s ⟨s.queue.drop 1, s.inflight.erase i ++ s.queue.take 1, s.done ++ [i]⟩

/-- All states the dispatch of `K` tasks under concurrency `limit` can reach. -/
def Reachable (limit K : Nat) (s : DispatchState) : Prop :=
  Relation.ReflTransGen DStep (initState limit K) s

/-- `withConcurrency` has returned: no task queued, no task awaited. -/
def Terminal (s : DispatchState) : Prop :=
  s.queue = [] ∧ s.inflight = []

def recipientAt (tasks : List CampaignSendTask) (i : Nat) : String :=
  ((tasks.get? i).map CampaignSendTask.recipient).getD ""

/-- Error message recorded by the `catch` arm of a job in `sendCampaign`. -/
def errOf (r : Except String Unit) : String :=
  match r with
  | Except.ok _ => ""
  | Except.error e => e

/-- Whether a send attempt succeeded (the `try` arm runs to `sent++`). -/
def isOkB (r : Except String Unit) : Bool :=
  match r with
  | Except.ok _ => true
  | Except.error _ => false

/-- Effect of one job of `sendCampaign` completing on the `(sent, failed)`
accumulator: the `try` arm increments `sent`, the `catch` arm appends a
`{recipient, error}` entry. `outcome i` is the result of the single
`sendEmailOne` attempt for task `i`. -/
def jobStep (outcome : Nat → Except String Unit) (tasks : List CampaignSendTask)
    (acc : Nat × List FailedEntry) (i : Nat) : Nat × List FailedEntry :=
  match outcome i with
  | Except.ok _ => (acc.1 + 1, acc.2)
  | Except.error e => (acc.1, acc.2 ++ [⟨recipientAt tasks i, e⟩])

/-- The `{sent, failed}` aggregate of `sendCampaign` once the jobs listed in
`done` have completed in that order. -/
def aggregate (outcome : Nat → Except String Unit) (tasks : List CampaignSendTask)
    (done : List Nat) : Nat × List FailedEntry :=
  done.foldl (jobStep outcome tasks) (0, [])

/-! ### Scheduler invariants -/

lemma initState_inflight_length (limit K : Nat) :
    (initState limit K).inflight.length = min limit K := by
  simp [initState, Nat.min_eq_left (Nat.min_le_right limit K)]

lemma dstep_inflight_length {s t : DispatchState} (h : DStep s t) :
    t.inflight.length ≤ s.inflight.length := by
  cases h with
  | complete i hi =>
    have h1 : (s.inflight.erase i).length = s.inflight.length - 1 :=
      List.length_erase_of_mem hi
    have h2 : (s.queue.take 1).length ≤ 1 := by
      simp
    have h3 : 1 ≤ s.inflight.length := List.length_pos.mpr (List.ne_nil_of_mem hi)
    simp only [List.length_append, h1]
    omega

lemma reachable_inflight_length {limit K : Nat} {s : DispatchState}
    (h : Reachable limit K s) : s.inflight.length ≤ min limit K := by
  induction h with
  | refl => simp [initState_inflight_length]
  | tail _ hstep ih => exact le_trans (dstep_inflight_length hstep) ih

lemma dstep_perm {s t : DispatchState} (h : DStep s t) :
    (t.queue ++ t.inflight ++ t.done).Perm (s.queue ++ s.inflight ++ s.done) := by
  cases h with
  | complete i hi =>
    rw [← Multiset.coe_eq_coe]
    have hq : ((s.queue : List Nat) : Multiset Nat)
        = ↑(s.queue.take 1) + ↑(s.queue.drop 1) := by
      rw [Multiset.coe_add, List.take_append_drop]
    have hf : ((s.inflight : List Nat) : Multiset Nat)
        = {i} + ↑(s.inflight.erase i) := by
      rw [Multiset.coe_eq_coe.mpr (List.perm_cons_erase hi), Multiset.singleton_add,
        Multiset.cons_coe]
    simp only [← Multiset.coe_add]
    rw [hq, hf, Multiset.coe_singleton]
    abel

lemma reachable_perm {limit K : Nat} {s : DispatchState}
    (h : Reachable limit K s) :
    (s.queue ++ s.inflight ++ s.done).Perm (List.range K) := by
  induction h with
  | refl =>
    have h1 : ((List.range K).drop (min limit K) ++ (List.range K).take (min limit K)).Perm
        ((List.range K).take (min limit K) ++ (List.range K).drop (min limit K)) :=
      List.perm_append_comm
    simpa [initState, List.take_append_drop] using h1
  | tail _ hstep ih => exact ((dstep_perm hstep).trans ih)

lemma terminal_done_perm {limit K : Nat} {s : DispatchState}
    (h : Reachable limit K s) (ht : Terminal s) : s.done.Perm (List.range K) := by
  have := reachable_perm h
  rwa [ht.1, ht.2, List.nil_append, List.nil_append] at this

lemma reachable_zero {limit : Nat} {s : DispatchState}
    (h : Reachable limit 0 s) : s = initState limit 0 := by
  induction h with
  | refl => rfl
  | tail hr hstep ih =>
    subst ih
    cases hstep with
    | complete i hi => simp [initState] at hi

/-! ### Aggregate lemmas -/

lemma aggregate_go (outcome : Nat → Except String Unit) (tasks : List CampaignSendTask) :
    ∀ (d : List Nat) (acc : Nat × List FailedEntry),
      (d.foldl (jobStep outcome tasks) acc).1 + (d.foldl (jobStep outcome tasks) acc).2.length
        = acc.1 + acc.2.length + d.length := by
  intro d
  induction d with
  | nil => intro acc; simp
  | cons i d ih =>
    intro acc
    simp only [List.foldl_cons, ih, List.length_cons]
    cases h : outcome i <;> simp [jobStep, h] <;> omega

lemma aggregate_sum (outcome : Nat → Except String Unit) (tasks : List CampaignSendTask)
    (d : List Nat) :
    (aggregate outcome tasks d).1 + (aggregate outcome tasks d).2.length = d.length := by
  simpa using aggregate_go outcome tasks d (0, [])

@[simp] lemma isOkB_ok (u : Unit) : isOkB (Except.ok u) = true := rfl

@[simp] lemma isOkB_error (e : String) : isOkB (Except.error e) = false := rfl

@[simp] lemma errOf_error (e : String) : errOf (Except.error e) = e := rfl

lemma aggregate_go_fst (outcome : Nat → Except String Unit) (tasks : List CampaignSendTask) :
    ∀ (d : List Nat) (acc : Nat × List FailedEntry),
      (d.foldl (jobStep outcome tasks) acc).1
        = acc.1 + (d.filter (fun i => isOkB (outcome i))).length := by
  intro d
  induction d with
  | nil => intro acc; simp
  | cons i d ih =>
    intro acc
    have hgo := ih (jobStep outcome tasks acc i)
    cases h : outcome i with
    | ok u =>
      simp only [jobStep, h] at hgo
      simp only [List.foldl_cons, jobStep, h, List.filter_cons, hgo]
      simp
      omega
    | error e =>
      simp only [jobStep, h] at hgo
      simp only [List.foldl_cons, jobStep, h, List.filter_cons, hgo]
      simp

lemma aggregate_go_snd (outcome : Nat → Except String Unit) (tasks : List CampaignSendTask) :
    ∀ (d : List Nat) (acc : Nat × List FailedEntry),
      (d.foldl (jobStep outcome tasks) acc).2
        = acc.2 ++ (d.filter (fun i => !isOkB (outcome i))).map
            (fun i => ⟨recipientAt tasks i, errOf (outcome i)⟩) := by
  intro d
  induction d with
  | nil => intro acc; simp
  | cons i d ih =>
    intro acc
    have hgo := ih (jobStep outcome tasks acc i)
    cases h : outcome i with
    | ok u =>
      simp only [jobStep, h] at hgo
      simp only [List.foldl_cons, jobStep, h, List.filter_cons, hgo]
      simp
    | error e =>
      simp only [jobStep, h] at hgo
      simp only [List.foldl_cons, jobStep, h, List.filter_cons, hgo]
      simp [h]

lemma aggregate_fst (outcome : Nat → Except String Unit) (tasks : List CampaignSendTask)
    (d : List Nat) :
    (aggregate outcome tasks d).1 = (d.filter (fun i => isOkB (outcome i))).length := by
  simpa using aggregate_go_fst outcome tasks d (0, [])

lemma aggregate_snd (outcome : Nat → Except String Unit) (tasks : List CampaignSendTask)
    (d : List Nat) :
    (aggregate outcome tasks d).2 = (d.filter (fun i => !isOkB (outcome i))).map
      (fun i => ⟨recipientAt tasks i, errOf (outcome i)⟩) := by
  simpa using aggregate_go_snd outcome tasks d (0, [])

/-! ### Sample data for witnesses -/

def sampleEmail : GeneratedEmail :=
  { id := "e1", subject := "Hello", htmlContent := "<p>Hi</p>"
    summary := { targetGroup := "tg", regionalAdaptation := "ra"
                 toneDecision := "td", legalConsiderations := "lc" } }

def sampleTask (r : String) : CampaignSendTask :=
  { email := sampleEmail, recipient := r, subject := "Hello" }

def c3Tasks : List CampaignSendTask :=
  [sampleTask "r1@x.se", sampleTask "r2@x.se", sampleTask "r3@x.se", sampleTask "r4@x.se"]

/-- Outcome oracle for the partial-failure scenario: attempts 2 and 4
(indices 1 and 3) fail, the rest succeed. -/
def c3Outcome : Nat → Except String Unit := fun i =>
  if i = 1 ∨ i = 3 then Except.error "SMTP 550 rejected" else Except.ok ()

lemma c1_deriv : Reachable 5 1 ⟨[], [], [0]⟩ := by
  have s0 : DStep (initState 5 1) ⟨[], [], [0]⟩ := DStep.complete _ 0 (by decide)
  exact Relation.ReflTransGen.tail Relation.ReflTransGen.refl s0

lemma c3_deriv : Reachable 5 4 ⟨[], [], [0, 1, 2, 3]⟩ := by
  have s0 : DStep (initState 5 4) ⟨[], [1, 2, 3], [0]⟩ := DStep.complete _ 0 (by decide)
  have s1 : DStep ⟨[], [1, 2, 3], [0]⟩ ⟨[], [2, 3], [0, 1]⟩ := DStep.complete _ 1 (by decide)
  have s2 : DStep ⟨[], [2, 3], [0, 1]⟩ ⟨[], [3], [0, 1, 2]⟩ := DStep.complete _ 2 (by decide)
  have s3 : DStep ⟨[], [3], [0, 1, 2]⟩ ⟨[], [], [0, 1, 2, 3]⟩ := DStep.complete _ 3 (by decide)
  exact Relation.ReflTransGen.tail (Relation.ReflTransGen.tail
    (Relation.ReflTransGen.tail (Relation.ReflTransGen.tail
      Relation.ReflTransGen.refl s0) s1) s2) s3

/-! ### Claims C1-C3 -/

/-- C1: for every list of send tasks, in every completed dispatch the result
satisfies `sent + |failed| = |tasks|`; and dispatching the empty task list can
only stay in the initial state, making no send call, with result
`{sent := 0, failed := []}`. -/
theorem C1_dispatch_sum :
    (∀ (tasks : List CampaignSendTask) (outcome : Nat → Except String Unit)
        (s : DispatchState), Reachable 5 tasks.length s → Terminal s →
        (aggregate outcome tasks s.done).1 + (aggregate outcome tasks s.done).2.length
          = tasks.length)
    ∧ (∀ (tasks : List CampaignSendTask) (outcome : Nat → Except String Unit)
        (s : DispatchState), tasks.length = 0 → Reachable 5 tasks.length s →
        s.done = [] ∧ s.inflight = [] ∧ aggregate outcome tasks s.done = (0, [])) := by
  constructor
  · intro tasks outcome s hr ht
    have hlen : s.done.length = tasks.length := by
      simpa using (terminal_done_perm hr ht).length_eq
    rw [aggregate_sum, hlen]
  · intro tasks outcome s h0 hr
    rw [h0] at hr
    have hs := reachable_zero hr
    subst hs
    exact ⟨rfl, rfl, rfl⟩

theorem C1_dispatch_sum_witness :
    ((aggregate (fun _ => Except.error "net down") [sampleTask "a@x.se"]
        (DispatchState.mk [] [] [0]).done).1
      + (aggregate (fun _ => Except.error "net down") [sampleTask "a@x.se"]
        (DispatchState.mk [] [] [0]).done).2.length = 1)
    ∧ ((initState 5 0).done = [] ∧ (initState 5 0).inflight = []
        ∧ aggregate (fun _ => Except.error "net down") [] (initState 5 0).done = (0, [])) := by
  constructor
  · exact C1_dispatch_sum.1 [sampleTask "a@x.se"] (fun _ => Except.error "net down")
      ⟨[], [], [0]⟩ c1_deriv ⟨rfl, rfl⟩
  · exact C1_dispatch_sum.2 [] (fun _ => Except.error "net down") (initState 5 0) rfl
      Relation.ReflTransGen.refl

/-- C2: in every reachable state of a dispatch under the code's concurrency
limit 5, at most 5 tasks are in flight; and once the dispatch completes, every
task index below `K` was completed exactly once and nothing else was ever
attempted. -/
theorem C2_concurrency_and_exactly_once :
    (∀ (K : Nat) (s : DispatchState), Reachable 5 K s → s.inflight.length ≤ 5)
    ∧ (∀ (K : Nat) (s : DispatchState), Reachable 5 K s → Terminal s →
        ∀ i : Nat, s.done.count i = if i < K then 1 else 0) := by
  constructor
  · intro K s hr
    exact le_trans (reachable_inflight_length hr) (Nat.min_le_left 5 K)
  · intro K s hr ht i
    have hperm := terminal_done_perm hr ht
    rw [hperm.count_eq]
    by_cases h : i < K
    · rw [if_pos h]
      exact List.count_eq_one_of_mem (List.nodup_range K) (List.mem_range.mpr h)
    · rw [if_neg h]
      exact List.count_eq_zero_of_not_mem (by simpa using h)

theorem C2_concurrency_and_exactly_once_witness :
    ((initState 5 7).inflight.length ≤ 5)
    ∧ ((DispatchState.mk [] [] [0]).done.count 0 = if 0 < 1 then 1 else 0) := by
  constructor
  · exact C2_concurrency_and_exactly_once.1 7 (initState 5 7) Relation.ReflTransGen.refl
  · exact C2_concurrency_and_exactly_once.2 1 ⟨[], [], [0]⟩ c1_deriv ⟨rfl, rfl⟩ 0

/-- C3: every failed send attempt is converted into a `{recipient, error}`
entry of `failed` (and only failed attempts are), successes are exactly what
`sent` counts, and in the concrete 4-task run where attempts 2 and 4 fail,
every completed dispatch yields `sent = 2` with `failed` naming exactly those
two recipients. -/
theorem C3_failure_isolation :
    (∀ (tasks : List CampaignSendTask) (outcome : Nat → Except String Unit)
        (d : List Nat),
      (aggregate outcome tasks d).2
          = (d.filter (fun i => !isOkB (outcome i))).map
              (fun i => ⟨recipientAt tasks i, errOf (outcome i)⟩)
        ∧ (aggregate outcome tasks d).1
          = (d.filter (fun i => isOkB (outcome i))).length)
    ∧ (∀ s : DispatchState, Reachable 5 4 s → Terminal s →
        (aggregate c3Outcome c3Tasks s.done).1 = 2
        ∧ ((aggregate c3Outcome c3Tasks s.done).2.map FailedEntry.recipient).Perm
            ["r2@x.se", "r4@x.se"]) := by
  constructor
  · intro tasks outcome d
    exact ⟨aggregate_snd outcome tasks d, aggregate_fst outcome tasks d⟩
  · intro s hr ht
    have hperm := terminal_done_perm hr ht
    constructor
    · rw [aggregate_fst]
      rw [(hperm.filter (fun i => isOkB (c3Outcome i))).length_eq]
      decide
    · rw [aggregate_snd, List.map_map]
      refine ((hperm.filter (fun i => !isOkB (c3Outcome i))).map _).trans ?_
      decide

theorem C3_failure_isolation_witness :
    ((aggregate c3Outcome c3Tasks [2]).2
        = ([2].filter (fun i => !isOkB (c3Outcome i))).map
            (fun i => ⟨recipientAt c3Tasks i, errOf (c3Outcome i)⟩)
      ∧ (aggregate c3Outcome c3Tasks [2]).1
        = ([2].filter (fun i => isOkB (c3Outcome i))).length)
    ∧ ((aggregate c3Outcome c3Tasks (DispatchState.mk [] [] [0, 1, 2, 3]).done).1 = 2
      ∧ ((aggregate c3Outcome c3Tasks
            (DispatchState.mk [] [] [0, 1, 2, 3]).done).2.map FailedEntry.recipient).Perm
          ["r2@x.se", "r4@x.se"]) :=
  ⟨C3_failure_isolation.1 c3Tasks c3Outcome [2],
   C3_failure_isolation.2 ⟨[], [], [0, 1, 2, 3]⟩ c3_deriv ⟨rfl, rfl⟩⟩

/-! ## CRM parser (crm-parser.ts)

JS strings are embedded as Lean `String`s; the handful of string operations
the source uses (`trim`, `split`, `toLowerCase`, the two regex replaces,
`includes`) are defined below over the character list with the JS ASCII
semantics the data relies on. -/

/-- JS `String.prototype.trim`. -/
def jsTrim (s : String) : String :=
  String.mk (((s.toList.dropWhile Char.isWhitespace).reverse.dropWhile
    Char.isWhitespace).reverse)

/-- JS `str.split(sep)` for a one-character separator: keeps empty pieces. -/
def splitOnCharAux (sep : Char) : List Char → List (List Char)
  | [] => [[]]
  | c :: rest =>
    let r := splitOnCharAux sep rest
    if c = sep then [] :: r
    else
      match r with
      | [] => [[c]]
      | g :: gs => (c :: g) :: gs

def jsSplitChar (sep : Char) (s : String) : List String :=
  (splitOnCharAux sep s.toList).map String.mk

/-- JS `toLowerCase` on the ASCII range the code relies on. -/
def jsToLower (s : String) : String := String.mk (s.toList.map Char.toLower)

/-- The double-quote character used by the CSV quoting rules. -/
def dquote : Char := Char.ofNat 34

/-- `parseCsvRow` of crm-parser.ts: split one line on commas, honouring
double-quoted fields with a doubled quote as an escaped quote. The JS loop
peeks at `line[i + 1]` when it meets a quote inside a quoted run; here that
lookahead is deferred into the `pendQuote` flag: the next character decides
whether that quote was an escape (`""`) or the closing quote. -/
def parseCsvRowAux : List Char → String → Bool → Bool → List String
  | [], cur, _, _ => [cur]
  | c :: cs, cur, inQuote, pendQuote =>
    if pendQuote then
      if c = dquote then parseCsvRowAux cs (cur.push dquote) true false
      else if c = ',' then cur :: parseCsvRowAux cs "" false false
      else parseCsvRowAux cs (cur.push c) false false
    else if c = dquote then
      if inQuote then parseCsvRowAux cs cur inQuote true
      else parseCsvRowAux cs cur true false
    else if c = ',' && !inQuote then
      cur :: parseCsvRowAux cs "" inQuote false
    else
      parseCsvRowAux cs (cur.push c) inQuote false

def parseCsvRow (line : String) : List String :=
  parseCsvRowAux line.toList "" false false

/-- A parsed row: a JS string-keyed object, i.e. an insertion-ordered
association list where assignment overwrites the value in place. -/
abbrev ContactRecord := List (String × String)

/-- JS `obj[k] = v`. -/
def recSet : ContactRecord → String → String → ContactRecord
  | [], k, v => [(k, v)]
  | (k', v') :: r, k, v =>
    if k' = k then (k, v) :: r else (k', v') :: recSet r k v

/-- `headers.forEach((h, i) => { obj[h.trim()] = values[i] ?? ""; })` -/
def buildRecAux (obj : ContactRecord) (headers values : List String) (i : Nat) :
    ContactRecord :=
  match headers with
  | [] => obj
  | h :: hs => buildRecAux (recSet obj (jsTrim h) (values.getD i "")) hs values (i + 1)

def buildRec (headers values : List String) : ContactRecord :=
  buildRecAux [] headers values 0

/-- `parseSimpleCsv` of crm-parser.ts. -/
def parseSimpleCsv (csv : String) : List ContactRecord :=
  let lines := jsSplitChar '\n' (jsTrim csv)
  if lines.length < 2 then []
  else
    match lines with
    | [] => []
    | hdr :: rest => rest.map (fun line => buildRec (parseCsvRow hdr) (parseCsvRow line))

structure HubSpotSegment where
  id : String
  name : String
  filterLabel : String
  emails : List String
deriving DecidableEq

/-- The trimmed email field of a contact (`c.email.trim()`, with a missing
field reading as the empty string). -/
def emailOf (c : ContactRecord) : String := jsTrim ((c.lookup "email").getD "")

/-- Truthiness of `c.email?.trim()`. -/
def hasEmail (c : ContactRecord) : Bool := emailOf c != ""

/-- The template `` `${n} contact${n !== 1 ? "s" : ""}` ``. -/
def contactCountLabel (n : Nat) : String :=
  toString n ++ " contact" ++ (if n != 1 then "s" else "")

/-- JS `Map` as used by the grouping passes (`groups.get(val) ?? []`, push,
`groups.set`): insertion-ordered keys, append to the value list. -/
def groupInsert : List (String × List String) → String → String → List (String × List String)
  | [], k, v => [(k, [v])]
  | (k', vs) :: g, k, v =>
    if k' = k then (k, vs ++ [v]) :: g else (k', vs) :: groupInsert g k v

def MAX_ENUM_SEGMENTS : Nat := 8

/-- The trimmed value `c[field]?.trim()` of a categorical field. -/
def fieldOf (c : ContactRecord) (field : String) : String :=
  jsTrim ((c.lookup field).getD "")

/-- Loop body of the grouping pass in `addEnumSegments`: skip contacts whose
trimmed field value is empty, otherwise push the trimmed email under the
value. -/
def enumStep (field : String) (g : List (String × List String))
    (c : ContactRecord) : List (String × List String) :=
  let val := fieldOf c field
  if val = "" then g else groupInsert g val (emailOf c)

def enumGroups (withEmail : List ContactRecord) (field : String) :
    List (String × List String) :=
  withEmail.foldl (enumStep field) []

/-- `val.toLowerCase().replace(/\s+/g, "_")`: each maximal whitespace run
becomes one underscore. The flag records whether the previous character was
whitespace (i.e. the run already emitted its underscore). -/
def enumSlugAux : List Char → Bool → List Char
  | [], _ => []
  | c :: cs, prevWs =>
    if c.isWhitespace then
      if prevWs then enumSlugAux cs true else '_' :: enumSlugAux cs true
    else c :: enumSlugAux cs false

def enumSlug (val : String) : String :=
  String.mk (enumSlugAux (jsToLower val).toList false)

/-- The `addEnumSegments` closure of `parseContactSegments`: per-value
segments for a categorical field, emitted only when the number of distinct
non-empty trimmed values is in `[2, MAX_ENUM_SEGMENTS]`. -/
def addEnumSegments (withEmail : List ContactRecord) (field : String)
    (labelFn : String → String) (idPref : String) : List HubSpotSegment :=
  let groups := enumGroups withEmail field
  if groups.length < 2 || groups.length > MAX_ENUM_SEGMENTS then []
  else
    groups.map (fun g =>
      { id := idPref ++ "_" ++ enumSlug g.1
        name := labelFn g.1
        filterLabel := field ++ ": " ++ g.1 ++ " · " ++ contactCountLabel g.2.length
        emails := g.2 })

structure AgeBracket where
  label : String
  min : Int
  /-- `none` models the JS `Infinity` upper bound. -/
  max : Option Int

def AGE_BRACKETS : List AgeBracket :=
  [{ label := "Under 30", min := 0, max := some 29 },
   { label := "30–45", min := 30, max := some 45 },
   { label := "Over 45", min := 46, max := none }]

/-- `age >= b.min && age <= b.max` (with `Infinity` always satisfied). -/
def inBracket (age : Int) (b : AgeBracket) : Bool :=
  decide (b.min ≤ age) && (match b.max with | some m => decide (age ≤ m) | none => true)

/-- JS `parseInt(s, 10)`: skip leading whitespace, optional sign, longest
digit prefix; `NaN` (here `none`) when no digit is found. -/
def parseIntTen (s : String) : Option Int :=
  let cs := s.toList.dropWhile Char.isWhitespace
  let signAndRest : Int × List Char :=
    match cs with
    | c :: rest =>
      if c = '-' then (-1, rest) else if c = '+' then (1, rest) else (1, cs)
    | [] => (1, [])
  let digits := signAndRest.2.takeWhile Char.isDigit
  if digits.isEmpty then none
  else some (signAndRest.1
    * ((digits.foldl (fun acc c => acc * 10 + (c.toNat - 48)) 0 : Nat) : Int))

/-- `parseInt(c.age?.trim() ?? "", 10)`, `none` for `NaN`. -/
def ageOf (c : ContactRecord) : Option Int :=
  parseIntTen (jsTrim ((c.lookup "age").getD ""))

/-- One iteration of the age-bracket loop of `parseContactSegments`: an
unparseable age contributes nothing, otherwise the first matching bracket
(`break`) receives the contact's email. -/
def ageStep (g : List (String × List String)) (c : ContactRecord) :
    List (String × List String) :=
  match ageOf c with
  | none => g
  | some age =>
    match AGE_BRACKETS.find? (fun b => inBracket age b) with
    | none => g
    | some b => groupInsert g b.label (emailOf c)

/-- `label.toLowerCase().replace(/[^a-z0-9]/g, "_")` -/
def nonAlnumSlug (s : String) : String :=
  String.mk ((jsToLower s).toList.map (fun c =>
    if ('a' ≤ c && c ≤ 'z') || ('0' ≤ c && c ≤ '9') then c else '_'))

def ageSegments (withEmail : List ContactRecord) : List HubSpotSegment :=
  let ageGroups := withEmail.foldl ageStep []
  if ageGroups.length ≥ 2 then
    ageGroups.map (fun g =>
      { id := "hs_age_" ++ nonAlnumSlug g.1
        name := "Age: " ++ g.1
        filterLabel := "age " ++ g.1 ++ " · " ++ contactCountLabel g.2.length
        emails := g.2 })
  else []

/-- The membership-seniority pass. The JS `new Date(dateStr)` validity test
and the `diffYears` thresholds against the runtime instant `now` are
abstracted by the classification oracle `senClass`: `none` for an invalid
date, `some 0` for `diffYears < 1`, `some 1` for `diffYears < 2`, `some 2`
otherwise. The claims checked in this file do not depend on which band a
parseable date falls in. -/
def senStep (senClass : String → Option Nat)
    (g : List String × List String × List String) (c : ContactRecord) :
    List String × List String × List String :=
  let dateStr := jsTrim ((c.lookup "membership_startdate").getD "")
  if dateStr = "" then g
  else
    match senClass dateStr with
    | none => g
    | some k =>
      if k = 0 then (g.1 ++ [emailOf c], g.2.1, g.2.2)
      else if k = 1 then (g.1, g.2.1 ++ [emailOf c], g.2.2)
      else (g.1, g.2.1, g.2.2 ++ [emailOf c])

def seniorityBands (senClass : String → Option Nat) (withEmail : List ContactRecord) :
    List String × List String × List String :=
  withEmail.foldl (senStep senClass) ([], [], [])

def senioritySegments (senClass : String → Option Nat)
    (withEmail : List ContactRecord) : List HubSpotSegment :=
  let bands := seniorityBands senClass withEmail
  let entries := [("New Members (<1 yr)", bands.1), ("Growing (1–2 yrs)", bands.2.1),
    ("Loyal (2+ yrs)", bands.2.2)]
  let nonEmpty := entries.filter (fun g => g.2.length > 0)
  if nonEmpty.length ≥ 2 then
    nonEmpty.map (fun g =>
      { id := "hs_seniority_" ++ nonAlnumSlug g.1
        name := g.1
        filterLabel := "membership seniority · " ++ contactCountLabel g.2.length
        emails := g.2 })
  else []

structure CrmData where
  fetchedAt : String
  contactsCount : Nat
  companiesCount : Nat
  contactsCsv : String
  companiesCsv : String

/-- The catch-all segment pushed first by `parseContactSegments`. -/
def allSegment (withEmail : List ContactRecord) : HubSpotSegment :=
  { id := "hs_all", name := "All HubSpot Contacts"
    filterLabel := contactCountLabel withEmail.length
    emails := withEmail.map emailOf }

/-- The strategy-generated segments, in the fixed order the source pushes
them: membership level, country, city, age brackets, seniority. -/
def strategySegments (senClass : String → Option Nat)
    (withEmail : List ContactRecord) : List HubSpotSegment :=
  addEnumSegments withEmail "membership_level" (fun v => v ++ " Members") "hs_level"
    ++ addEnumSegments withEmail "country" (fun v => v) "hs_country"
    ++ addEnumSegments withEmail "city" (fun v => v ++ " (city)") "hs_city"
    ++ ageSegments withEmail
    ++ senioritySegments senClass withEmail

/-- `parseContactSegments` of crm-parser.ts. -/
def parseContactSegments (senClass : String → Option Nat) (data : CrmData) :
    List HubSpotSegment :=
  let contacts := parseSimpleCsv data.contactsCsv
  if contacts.length = 0 then []
  else
    let withEmail := contacts.filter hasEmail
    if withEmail.length = 0 then []
    else allSegment withEmail :: strategySegments senClass withEmail

/-! ### Segment scorer -/

/-- JS `\w` word character: `[A-Za-z0-9_]`. -/
def isWordChar (c : Char) : Bool := c.isAlphanum || c = '_'

/-- JS `segText.split(/\W+/)`: split on maximal runs of non-word characters,
keeping the (possibly empty) leading and trailing pieces as JS does. The
`Option` is the token being accumulated; `none` means we are inside a
separator run (its token has already been emitted). -/
def splitNonWordGo : List Char → Option String → List String
  | [], none => [""]
  | [], some cur => [cur]
  | c :: cs, none =>
    if isWordChar c then splitNonWordGo cs (some (String.mk [c]))
    else splitNonWordGo cs none
  | c :: cs, some cur =>
    if isWordChar c then splitNonWordGo cs (some (cur.push c))
    else cur :: splitNonWordGo cs none

def splitNonWord (s : String) : List String := splitNonWordGo s.toList (some "")

/-- JS `hay.includes(needle)` on character lists. -/
def containsSub (needle : List Char) : List Char → Bool
  | [] => needle.isPrefixOf []
  | c :: t => needle.isPrefixOf (c :: t) || containsSub needle t

/-- The tokens of `segment.name + " " + segment.filterLabel` that survive the
`length > 3` filter, lowercased. -/
def scoreWords (segment : HubSpotSegment) : List String :=
  (splitNonWord (jsToLower (segment.name ++ " " ++ segment.filterLabel))).filter
    (fun w => w.length > 3)

/-- `words.filter((w) => target.includes(w)).length` -/
def countMatches (words : List String) (target : String) : Nat :=
  (words.filter (fun w => containsSub w.toList target.toList)).length

/-- `scoreSegment` of crm-parser.ts. -/
def scoreSegment (segment : HubSpotSegment) (targetGroup : String) : Nat :=
  countMatches (scoreWords segment) (jsToLower targetGroup)

/-! ### Claim C4: the catch-all segment -/

/-- C4, counterexample: on a CRM export whose contacts CSV is empty, the
builder returns no segments at all, so the catch-all segment is not "always
present in the output". -/
theorem C4_counterexample :
    parseContactSegments (fun _ => none)
      { fetchedAt := "", contactsCount := 0, companiesCount := 0,
        contactsCsv := "", companiesCsv := "" } = [] := by
  decide

/-- C4 (amended): whenever at least one parsed contact has a non-empty
trimmed email, the segment list starts with the single catch-all segment
listing every such row's trimmed email, followed by the strategy-generated
segments; with no such contact the builder returns the empty list (no
catch-all). -/
theorem C4_catchall_first (senClass : String → Option Nat) (data : CrmData)
    (h : (parseSimpleCsv data.contactsCsv).filter hasEmail ≠ []) :
    parseContactSegments senClass data
      = allSegment ((parseSimpleCsv data.contactsCsv).filter hasEmail)
        :: strategySegments senClass ((parseSimpleCsv data.contactsCsv).filter hasEmail) := by
  have h2 : ¬((parseSimpleCsv data.contactsCsv).filter hasEmail).length = 0 := by
    simpa [List.length_eq_zero] using h
  have h1 : ¬(parseSimpleCsv data.contactsCsv).length = 0 := by
    intro h0
    rw [List.length_eq_zero] at h0
    exact h (by rw [h0]; rfl)
  simp only [parseContactSegments]
  rw [if_neg h1, if_neg h2]

theorem C4_catchall_first_witness :
    parseContactSegments (fun _ => none)
      { fetchedAt := "", contactsCount := 1, companiesCount := 0,
        contactsCsv := "email\na@b.com", companiesCsv := "" }
      = allSegment ((parseSimpleCsv "email\na@b.com").filter hasEmail)
        :: strategySegments (fun _ => none)
            ((parseSimpleCsv "email\na@b.com").filter hasEmail) :=
  C4_catchall_first (fun _ => none)
    { fetchedAt := "", contactsCount := 1, companiesCount := 0,
      contactsCsv := "email\na@b.com", companiesCsv := "" } (by decide)

/-! ### Claim C5: provenance of segment email entries -/

lemma groupInsert_values_ok {P : String → Prop} :
    ∀ (g : List (String × List String)) (k v : String),
      (∀ p ∈ g, ∀ e ∈ p.2, P e) → P v →
      ∀ p ∈ groupInsert g k v, ∀ e ∈ p.2, P e := by
  intro g
  induction g with
  | nil =>
    intro k v _ hv p hp e he
    simp only [groupInsert, List.mem_singleton] at hp
    subst hp
    simp only [List.mem_singleton] at he
    subst he
    exact hv
  | cons q g ih =>
    obtain ⟨k0, vs0⟩ := q
    intro k v hg hv p hp e he
    by_cases h : k0 = k
    · subst h
      simp only [groupInsert, eq_self_iff_true, if_true, List.mem_cons] at hp
      cases hp with
      | inl hp1 =>
        subst hp1
        have he2 : e ∈ vs0 ++ [v] := he
        rcases List.mem_append.mp he2 with he3 | he3
        · exact hg (k0, vs0) (by simp) e he3
        · simp only [List.mem_singleton] at he3
          subst he3
          exact hv
      | inr hp1 => exact hg p (List.mem_cons_of_mem _ hp1) e he
    · simp only [groupInsert, if_neg h, List.mem_cons] at hp
      rcases hp with rfl | hp
      · exact hg (k0, vs0) (by simp) e he
      · exact ih k v (fun q2 hq2 e2 he2 => hg q2 (List.mem_cons_of_mem _ hq2) e2 he2)
          hv p hp e he

lemma fold_groups_values {P : String → Prop}
    (step : List (String × List String) → ContactRecord → List (String × List String))
    (hstep : ∀ g c, (∀ p ∈ g, ∀ e ∈ p.2, P e) → P (emailOf c) →
      ∀ p ∈ step g c, ∀ e ∈ p.2, P e) :
    ∀ (we : List ContactRecord) (g : List (String × List String)),
      (∀ p ∈ g, ∀ e ∈ p.2, P e) → (∀ c ∈ we, P (emailOf c)) →
      ∀ p ∈ we.foldl step g, ∀ e ∈ p.2, P e := by
  intro we
  induction we with
  | nil =>
    intro g hg _
    simpa using hg
  | cons c we ih =>
    intro g hg hwe
    rw [List.foldl_cons]
    exact ih (step g c) (hstep g c hg (hwe c (by simp)))
      (fun c2 hc2 => hwe c2 (List.mem_cons_of_mem _ hc2))

lemma enumStep_values_ok {P : String → Prop} (field : String)
    (g : List (String × List String)) (c : ContactRecord)
    (hg : ∀ p ∈ g, ∀ e ∈ p.2, P e) (hc : P (emailOf c)) :
    ∀ p ∈ enumStep field g c, ∀ e ∈ p.2, P e := by
  simp only [enumStep]
  by_cases hv : fieldOf c field = ""
  · rw [if_pos hv]
    exact hg
  · rw [if_neg hv]
    exact groupInsert_values_ok g _ _ hg hc

lemma ageStep_values_ok {P : String → Prop} (g : List (String × List String))
    (c : ContactRecord) (hg : ∀ p ∈ g, ∀ e ∈ p.2, P e) (hc : P (emailOf c)) :
    ∀ p ∈ ageStep g c, ∀ e ∈ p.2, P e := by
  rcases hA : ageOf c with _ | age
  · simpa [ageStep, hA] using hg
  · rcases hB : AGE_BRACKETS.find? (fun b => inBracket age b) with _ | b
    · simpa [ageStep, hA, hB] using hg
    · simpa [ageStep, hA, hB] using groupInsert_values_ok g b.label (emailOf c) hg hc

lemma senStep_values_ok {P : String → Prop} (senClass : String → Option Nat)
    (g : List String × List String × List String) (c : ContactRecord)
    (hg : (∀ e ∈ g.1, P e) ∧ (∀ e ∈ g.2.1, P e) ∧ (∀ e ∈ g.2.2, P e))
    (hc : P (emailOf c)) :
    (∀ e ∈ (senStep senClass g c).1, P e)
    ∧ (∀ e ∈ (senStep senClass g c).2.1, P e)
    ∧ (∀ e ∈ (senStep senClass g c).2.2, P e) := by
  have happend : ∀ (l : List String), (∀ e ∈ l, P e) →
      ∀ e ∈ l ++ [emailOf c], P e := by
    intro l hl e he
    rcases List.mem_append.mp he with he | he
    · exact hl e he
    · simp only [List.mem_singleton] at he
      subst he
      exact hc
  by_cases hd : jsTrim ((c.lookup "membership_startdate").getD "") = ""
  · simp only [senStep, if_pos hd]
    exact hg
  · rcases hK : senClass (jsTrim ((c.lookup "membership_startdate").getD "")) with _ | k
    · simp only [senStep, if_neg hd, hK]
      exact hg
    · by_cases h0 : k = 0
      · simp only [senStep, if_neg hd, hK, if_pos h0]
        exact ⟨happend g.1 hg.1, hg.2.1, hg.2.2⟩
      · by_cases h1 : k = 1
        · simp only [senStep, if_neg hd, hK, if_neg h0, if_pos h1]
          exact ⟨hg.1, happend g.2.1 hg.2.1, hg.2.2⟩
        · simp only [senStep, if_neg hd, hK, if_neg h0, if_neg h1]
          exact ⟨hg.1, hg.2.1, happend g.2.2 hg.2.2⟩

lemma seniorityBands_values_ok {P : String → Prop} (senClass : String → Option Nat) :
    ∀ (we : List ContactRecord) (g : List String × List String × List String),
      ((∀ e ∈ g.1, P e) ∧ (∀ e ∈ g.2.1, P e) ∧ (∀ e ∈ g.2.2, P e)) →
      (∀ c ∈ we, P (emailOf c)) →
      ((∀ e ∈ (we.foldl (senStep senClass) g).1, P e)
        ∧ (∀ e ∈ (we.foldl (senStep senClass) g).2.1, P e)
        ∧ (∀ e ∈ (we.foldl (senStep senClass) g).2.2, P e)) := by
  intro we
  induction we with
  | nil =>
    intro g hg _
    simpa using hg
  | cons c we ih =>
    intro g hg hwe
    rw [List.foldl_cons]
    exact ih _ (senStep_values_ok senClass g c hg (hwe c (by simp)))
      (fun c2 hc2 => hwe c2 (List.mem_cons_of_mem _ hc2))

lemma addEnumSegments_emails (we : List ContactRecord) (field : String)
    (labelFn : String → String) (idPref : String) (seg : HubSpotSegment)
    (hseg : seg ∈ addEnumSegments we field labelFn idPref)
    (e : String) (he : e ∈ seg.emails) : ∃ c ∈ we, e = emailOf c := by
  simp only [addEnumSegments] at hseg
  split at hseg
  · simp at hseg
  · obtain ⟨g, hg, rfl⟩ := List.mem_map.mp hseg
    exact fold_groups_values (P := fun e2 => ∃ c ∈ we, e2 = emailOf c)
      (enumStep field) (fun g2 c2 => enumStep_values_ok field g2 c2) we []
      (by simp) (fun c hc => ⟨c, hc, rfl⟩) g hg e he

lemma ageSegments_emails (we : List ContactRecord) (seg : HubSpotSegment)
    (hseg : seg ∈ ageSegments we) (e : String) (he : e ∈ seg.emails) :
    ∃ c ∈ we, e = emailOf c := by
  simp only [ageSegments] at hseg
  split at hseg
  · obtain ⟨g, hg, rfl⟩ := List.mem_map.mp hseg
    exact fold_groups_values (P := fun e2 => ∃ c ∈ we, e2 = emailOf c)
      (fun g2 c2 => ageStep g2 c2) (fun g2 c2 => ageStep_values_ok g2 c2) we []
      (by simp) (fun c hc => ⟨c, hc, rfl⟩) g hg e he
  · simp at hseg

lemma senioritySegments_emails (senClass : String → Option Nat)
    (we : List ContactRecord) (seg : HubSpotSegment)
    (hseg : seg ∈ senioritySegments senClass we) (e : String)
    (he : e ∈ seg.emails) : ∃ c ∈ we, e = emailOf c := by
  have hbands := seniorityBands_values_ok (P := fun e => ∃ c ∈ we, e = emailOf c)
    senClass we ([], [], []) (by simp) (fun c hc => ⟨c, hc, rfl⟩)
  simp only [senioritySegments, seniorityBands] at hseg ⊢
  split at hseg
  · obtain ⟨g, hg, rfl⟩ := List.mem_map.mp hseg
    have hgmem := (List.mem_filter.mp hg).1
    simp only [List.mem_cons, List.mem_singleton, List.not_mem_nil, or_false] at hgmem
    rcases hgmem with rfl | rfl | rfl
    · exact hbands.1 e he
    · exact hbands.2.1 e he
    · exact hbands.2.2 e he
  · simp at hseg

lemma strategySegments_emails (senClass : String → Option Nat)
    (we : List ContactRecord) (seg : HubSpotSegment)
    (hseg : seg ∈ strategySegments senClass we) (e : String)
    (he : e ∈ seg.emails) : ∃ c ∈ we, e = emailOf c := by
  simp only [strategySegments, List.mem_append] at hseg
  rcases hseg with ((((h | h) | h) | h) | h)
  · exact addEnumSegments_emails _ _ _ _ _ h e he
  · exact addEnumSegments_emails _ _ _ _ _ h e he
  · exact addEnumSegments_emails _ _ _ _ _ h e he
  · exact ageSegments_emails _ _ h e he
  · exact senioritySegments_emails _ _ _ h e he

/-! Encounter order: each grouping pass appends emails in the order the
contacts are traversed, so every produced list is an order-preserving
selection — a `Sublist` — of the full row-order email list. -/

lemma groupInsert_sublist {L : List String} :
    ∀ (g : List (String × List String)) (k v : String),
      (∀ p ∈ g, p.2.Sublist L) →
      ∀ p ∈ groupInsert g k v, p.2.Sublist (L ++ [v]) := by
  intro g
  induction g with
  | nil =>
    intro k v _ p hp
    simp only [groupInsert, List.mem_singleton] at hp
    subst hp
    exact List.sublist_append_right L [v]
  | cons q g ih =>
    obtain ⟨k0, vs0⟩ := q
    intro k v hg p hp
    by_cases h : k0 = k
    · subst h
      simp only [groupInsert, eq_self_iff_true, if_true, List.mem_cons] at hp
      cases hp with
      | inl hp1 =>
        subst hp1
        exact (hg (k0, vs0) (by simp)).append (List.Sublist.refl [v])
      | inr hp1 =>
        exact (hg p (List.mem_cons_of_mem _ hp1)).trans (List.sublist_append_left L [v])
    · simp only [groupInsert, if_neg h, List.mem_cons] at hp
      cases hp with
      | inl hp1 =>
        subst hp1
        exact (hg (k0, vs0) (by simp)).trans (List.sublist_append_left L [v])
      | inr hp1 =>
        exact ih k v (fun q2 hq2 => hg q2 (List.mem_cons_of_mem _ hq2)) p hp1

lemma fold_groups_sublist
    (step : List (String × List String) → ContactRecord → List (String × List String))
    (hstep : ∀ g c (L : List String), (∀ p ∈ g, p.2.Sublist L) →
      ∀ p ∈ step g c, p.2.Sublist (L ++ [emailOf c])) :
    ∀ (we : List ContactRecord) (g : List (String × List String)) (L : List String),
      (∀ p ∈ g, p.2.Sublist L) →
      ∀ p ∈ we.foldl step g, p.2.Sublist (L ++ we.map emailOf) := by
  intro we
  induction we with
  | nil =>
    intro g L hg p hp
    simp only [List.foldl_nil] at hp
    simpa using hg p hp
  | cons c we ih =>
    intro g L hg p hp
    rw [List.foldl_cons] at hp
    have hx := ih (step g c) (L ++ [emailOf c]) (hstep g c L hg) p hp
    simpa [List.append_assoc] using hx

lemma enumStep_sublist (field : String) (g : List (String × List String))
    (c : ContactRecord) (L : List String) (hg : ∀ p ∈ g, p.2.Sublist L) :
    ∀ p ∈ enumStep field g c, p.2.Sublist (L ++ [emailOf c]) := by
  simp only [enumStep]
  by_cases hv : fieldOf c field = ""
  · rw [if_pos hv]
    intro p hp
    exact (hg p hp).trans (List.sublist_append_left L _)
  · rw [if_neg hv]
    exact groupInsert_sublist g _ _ hg

lemma ageStep_sublist (g : List (String × List String)) (c : ContactRecord)
    (L : List String) (hg : ∀ p ∈ g, p.2.Sublist L) :
    ∀ p ∈ ageStep g c, p.2.Sublist (L ++ [emailOf c]) := by
  have hid : ∀ p ∈ g, p.2.Sublist (L ++ [emailOf c]) :=
    fun p hp => (hg p hp).trans (List.sublist_append_left L _)
  rcases hA : ageOf c with _ | age
  · simpa [ageStep, hA] using hid
  · rcases hB : AGE_BRACKETS.find? (fun b => inBracket age b) with _ | b
    · simpa [ageStep, hA, hB] using hid
    · simpa [ageStep, hA, hB] using groupInsert_sublist g b.label (emailOf c) hg

lemma senStep_sublist (senClass : String → Option Nat)
    (g : List String × List String × List String) (c : ContactRecord)
    (L : List String)
    (hg : g.1.Sublist L ∧ g.2.1.Sublist L ∧ g.2.2.Sublist L) :
    (senStep senClass g c).1.Sublist (L ++ [emailOf c])
    ∧ (senStep senClass g c).2.1.Sublist (L ++ [emailOf c])
    ∧ (senStep senClass g c).2.2.Sublist (L ++ [emailOf c]) := by
  have hL : ∀ l : List String, l.Sublist L → l.Sublist (L ++ [emailOf c]) :=
    fun l hl => hl.trans (List.sublist_append_left L _)
  have happ : ∀ l : List String, l.Sublist L →
      (l ++ [emailOf c]).Sublist (L ++ [emailOf c]) :=
    fun l hl => hl.append (List.Sublist.refl _)
  by_cases hd : jsTrim ((c.lookup "membership_startdate").getD "") = ""
  · simp only [senStep, if_pos hd]
    exact ⟨hL _ hg.1, hL _ hg.2.1, hL _ hg.2.2⟩
  · rcases hK : senClass (jsTrim ((c.lookup "membership_startdate").getD "")) with _ | k
    · simp only [senStep, if_neg hd, hK]
      exact ⟨hL _ hg.1, hL _ hg.2.1, hL _ hg.2.2⟩
    · by_cases h0 : k = 0
      · simp only [senStep, if_neg hd, hK, if_pos h0]
        exact ⟨happ _ hg.1, hL _ hg.2.1, hL _ hg.2.2⟩
      · by_cases h1 : k = 1
        · simp only [senStep, if_neg hd, hK, if_neg h0, if_pos h1]
          exact ⟨hL _ hg.1, happ _ hg.2.1, hL _ hg.2.2⟩
        · simp only [senStep, if_neg hd, hK, if_neg h0, if_neg h1]
          exact ⟨hL _ hg.1, hL _ hg.2.1, happ _ hg.2.2⟩

lemma seniorityBands_sublist (senClass : String → Option Nat) :
    ∀ (we : List ContactRecord) (g : List String × List String × List String)
      (L : List String),
      (g.1.Sublist L ∧ g.2.1.Sublist L ∧ g.2.2.Sublist L) →
      ((we.foldl (senStep senClass) g).1.Sublist (L ++ we.map emailOf)
        ∧ (we.foldl (senStep senClass) g).2.1.Sublist (L ++ we.map emailOf)
        ∧ (we.foldl (senStep senClass) g).2.2.Sublist (L ++ we.map emailOf)) := by
  intro we
  induction we with
  | nil =>
    intro g L hg
    simpa using hg
  | cons c we ih =>
    intro g L hg
    rw [List.foldl_cons]
    have hx := ih (senStep senClass g c) (L ++ [emailOf c])
      (senStep_sublist senClass g c L hg)
    simpa [List.append_assoc] using hx

lemma addEnumSegments_sublist (we : List ContactRecord) (field : String)
    (labelFn : String → String) (idPref : String) (seg : HubSpotSegment)
    (hseg : seg ∈ addEnumSegments we field labelFn idPref) :
    seg.emails.Sublist (we.map emailOf) := by
  simp only [addEnumSegments] at hseg
  split at hseg
  · simp at hseg
  · obtain ⟨g, hg, rfl⟩ := List.mem_map.mp hseg
    have hx := fold_groups_sublist (enumStep field)
      (fun g2 c2 L2 => enumStep_sublist field g2 c2 L2) we [] []
      (by simp) g hg
    simpa using hx

lemma ageSegments_sublist (we : List ContactRecord) (seg : HubSpotSegment)
    (hseg : seg ∈ ageSegments we) : seg.emails.Sublist (we.map emailOf) := by
  simp only [ageSegments] at hseg
  split at hseg
  · obtain ⟨g, hg, rfl⟩ := List.mem_map.mp hseg
    have hx := fold_groups_sublist (fun g2 c2 => ageStep g2 c2)
      (fun g2 c2 L2 => ageStep_sublist g2 c2 L2) we [] []
      (by simp) g hg
    simpa using hx
  · simp at hseg

lemma senioritySegments_sublist (senClass : String → Option Nat)
    (we : List ContactRecord) (seg : HubSpotSegment)
    (hseg : seg ∈ senioritySegments senClass we) :
    seg.emails.Sublist (we.map emailOf) := by
  have hbands := seniorityBands_sublist senClass we ([], [], []) []
    (by simp)
  simp only [List.nil_append] at hbands
  simp only [senioritySegments, seniorityBands] at hseg
  split at hseg
  · obtain ⟨g, hg, rfl⟩ := List.mem_map.mp hseg
    have hgmem := (List.mem_filter.mp hg).1
    simp only [List.mem_cons, List.mem_singleton, List.not_mem_nil, or_false] at hgmem
    rcases hgmem with rfl | rfl | rfl
    · exact hbands.1
    · exact hbands.2.1
    · exact hbands.2.2
  · simp at hseg

lemma strategySegments_sublist (senClass : String → Option Nat)
    (we : List ContactRecord) (seg : HubSpotSegment)
    (hseg : seg ∈ strategySegments senClass we) :
    seg.emails.Sublist (we.map emailOf) := by
  simp only [strategySegments, List.mem_append] at hseg
  rcases hseg with ((((h | h) | h) | h) | h)
  · exact addEnumSegments_sublist _ _ _ _ _ h
  · exact addEnumSegments_sublist _ _ _ _ _ h
  · exact addEnumSegments_sublist _ _ _ _ _ h
  · exact ageSegments_sublist _ _ h
  · exact senioritySegments_sublist _ _ _ h

/-- CRM export whose two contacts share one email address. -/
def c5Data : CrmData :=
  { fetchedAt := "", contactsCount := 2, companiesCount := 0,
    contactsCsv := "email\nx@y.se\nx@y.se", companiesCsv := "" }

/-- C5, counterexample: two contacts sharing an email produce a catch-all
segment whose `emails` list holds that address twice — the entries of a
produced segment are not unique. -/
theorem C5_counterexample :
    ∃ seg ∈ parseContactSegments (fun _ => none) c5Data, ¬seg.emails.Nodup := by
  decide

/-- C5 (amended): every produced segment's `emails` list is an
order-preserving selection (a sublist) of the trimmed emails of the
email-bearing rows in row order — entries appear in encounter order — and
every entry is the trimmed, non-empty email of some parsed contact whose
trimmed email field is non-empty; but entries are not deduplicated: contacts
sharing an address yield repeated entries. -/
theorem C5_email_entries (senClass : String → Option Nat) (data : CrmData)
    (seg : HubSpotSegment) (hseg : seg ∈ parseContactSegments senClass data) :
    seg.emails.Sublist
        (((parseSimpleCsv data.contactsCsv).filter hasEmail).map emailOf)
    ∧ ∀ e ∈ seg.emails, e ≠ ""
        ∧ ∃ c ∈ parseSimpleCsv data.contactsCsv,
            hasEmail c = true ∧ e = emailOf c := by
  have hmain : seg.emails.Sublist
        (((parseSimpleCsv data.contactsCsv).filter hasEmail).map emailOf)
      ∧ ∀ e ∈ seg.emails, ∃ c ∈ (parseSimpleCsv data.contactsCsv).filter hasEmail,
          e = emailOf c := by
    revert hseg
    simp only [parseContactSegments]
    split
    · intro h
      simp at h
    · split
      · intro h
        simp at h
      · intro hseg
        rcases List.mem_cons.mp hseg with rfl | hstr
        · constructor
          · exact List.Sublist.refl _
          · intro e he
            simp only [allSegment] at he
            obtain ⟨c, hc, rfl⟩ := List.mem_map.mp he
            exact ⟨c, hc, rfl⟩
        · exact ⟨strategySegments_sublist senClass _ seg hstr,
            fun e he => strategySegments_emails senClass _ seg hstr e he⟩
  refine ⟨hmain.1, ?_⟩
  intro e he
  obtain ⟨c, hcmem, rfl⟩ := hmain.2 e he
  obtain ⟨hcc, hce⟩ := List.mem_filter.mp hcmem
  refine ⟨?_, c, hcc, hce, rfl⟩
  simpa [hasEmail] using hce

/-- The catch-all segment the duplicate-email export produces. -/
def c5Seg : HubSpotSegment :=
  { id := "hs_all", name := "All HubSpot Contacts", filterLabel := "2 contacts",
    emails := ["x@y.se", "x@y.se"] }

theorem C5_email_entries_witness :
    c5Seg.emails.Sublist
        (((parseSimpleCsv c5Data.contactsCsv).filter hasEmail).map emailOf)
    ∧ ("x@y.se" ≠ ""
        ∧ ∃ c ∈ parseSimpleCsv c5Data.contactsCsv,
            hasEmail c = true ∧ "x@y.se" = emailOf c) := by
  have h := C5_email_entries (fun _ => none) c5Data c5Seg (by decide)
  exact ⟨h.1, h.2 "x@y.se" (by decide)⟩

/-! ### Claim C6: all-or-nothing materialization of categorical fields -/

lemma keys_groupInsert (g : List (String × List String)) (k v : String) :
    (groupInsert g k v).map Prod.fst
      = if k ∈ g.map Prod.fst then g.map Prod.fst else g.map Prod.fst ++ [k] := by
  induction g with
  | nil => simp [groupInsert]
  | cons p g ih =>
    obtain ⟨k', vs⟩ := p
    by_cases h : k' = k
    · subst h
      simp [groupInsert]
    · have hne : ¬k = k' := fun hh => h hh.symm
      simp only [groupInsert, if_neg h, List.map_cons, List.mem_cons, ih]
      by_cases hk : k ∈ g.map Prod.fst
      · simp [hk, hne]
      · simp [hk, hne]

lemma keys_nodup_groupInsert (g : List (String × List String)) (k v : String)
    (h : (g.map Prod.fst).Nodup) : ((groupInsert g k v).map Prod.fst).Nodup := by
  rw [keys_groupInsert]
  by_cases hk : k ∈ g.map Prod.fst
  · simpa [hk] using h
  · simp [hk, List.nodup_append, h]

lemma mem_keys_groupInsert (g : List (String × List String)) (k v x : String) :
    x ∈ (groupInsert g k v).map Prod.fst ↔ x ∈ g.map Prod.fst ∨ x = k := by
  rw [keys_groupInsert]
  by_cases hk : k ∈ g.map Prod.fst
  · rw [if_pos hk]
    constructor
    · exact Or.inl
    · rintro (hx | rfl)
      · exact hx
      · exact hk
  · rw [if_neg hk]
    simp

lemma enumGroups_go_nodup (field : String) :
    ∀ (we : List ContactRecord) (g : List (String × List String)),
      (g.map Prod.fst).Nodup → ((we.foldl (enumStep field) g).map Prod.fst).Nodup := by
  intro we
  induction we with
  | nil => intro g h; exact h
  | cons c we ih =>
    intro g h
    rw [List.foldl_cons]
    apply ih
    simp only [enumStep]
    by_cases hv : fieldOf c field = ""
    · simpa [hv] using h
    · rw [if_neg hv]
      exact keys_nodup_groupInsert _ _ _ h

lemma enumGroups_go_mem (field : String) :
    ∀ (we : List ContactRecord) (g : List (String × List String)) (x : String),
      (x ∈ (we.foldl (enumStep field) g).map Prod.fst
        ↔ x ∈ g.map Prod.fst ∨ ∃ c ∈ we, fieldOf c field = x ∧ x ≠ "") := by
  intro we
  induction we with
  | nil => simp
  | cons c we ih =>
    intro g x
    rw [List.foldl_cons, ih]
    simp only [enumStep, List.mem_cons, exists_eq_or_imp]
    by_cases hv : fieldOf c field = ""
    · rw [if_pos hv, hv]
      have hfalse : ¬("" = x ∧ x ≠ "") := by
        rintro ⟨rfl, hx⟩
        exact hx rfl
      tauto
    · rw [if_neg hv, mem_keys_groupInsert]
      have hPc : (fieldOf c field = x ∧ x ≠ "") ↔ x = fieldOf c field := by
        constructor
        · rintro ⟨h1, _⟩
          exact h1.symm
        · rintro rfl
          exact ⟨rfl, hv⟩
      rw [hPc]
      tauto

/-- C6: for any contact list and categorical field, the grouping keys are
exactly the distinct non-empty trimmed field values (no duplicates), and the
field contributes segments exactly when that distinct count lies in `[2, 8]`
— in which case it contributes one segment per distinct value, else none. -/
theorem C6_enum_field_materialization (we : List ContactRecord) (field : String)
    (labelFn : String → String) (idPref : String) :
    ((enumGroups we field).map Prod.fst).Nodup
    ∧ (∀ v, v ∈ (enumGroups we field).map Prod.fst
        ↔ ∃ c ∈ we, fieldOf c field = v ∧ v ≠ "")
    ∧ (addEnumSegments we field labelFn idPref).length
        = if 2 ≤ (enumGroups we field).length ∧ (enumGroups we field).length ≤ 8
          then (enumGroups we field).length else 0 := by
  refine ⟨enumGroups_go_nodup field we [] (by simp), ?_, ?_⟩
  · intro v
    rw [enumGroups, enumGroups_go_mem]
    simp
  · simp only [addEnumSegments]
    by_cases hc : 2 ≤ (enumGroups we field).length ∧ (enumGroups we field).length ≤ 8
    · have hcond : ¬((decide ((enumGroups we field).length < 2)
          || decide ((enumGroups we field).length > MAX_ENUM_SEGMENTS)) = true) := by
        simp only [MAX_ENUM_SEGMENTS, Bool.or_eq_true, decide_eq_true_eq]
        omega
      rw [if_pos hc, if_neg hcond, List.length_map]
    · have hcond : ((decide ((enumGroups we field).length < 2)
          || decide ((enumGroups we field).length > MAX_ENUM_SEGMENTS)) = true) := by
        simp only [MAX_ENUM_SEGMENTS, Bool.or_eq_true, decide_eq_true_eq]
        omega
      rw [if_neg hc, if_pos hcond]
      rfl

/-! ### Claim C7: age bracket bucketing -/

lemma age_bracket_unique (age : Int) (h0 : 0 ≤ age) :
    (AGE_BRACKETS.filter (fun b => inBracket age b)).length = 1 := by
  by_cases h1 : age ≤ 29
  · have g1 : ¬(30 : Int) ≤ age := by omega
    have g2 : ¬(46 : Int) ≤ age := by omega
    simp [AGE_BRACKETS, inBracket, h0, h1, g1, g2]
  · by_cases h2 : age ≤ 45
    · have g1 : (30 : Int) ≤ age := by omega
      have g2 : ¬(46 : Int) ≤ age := by omega
      simp [AGE_BRACKETS, inBracket, h1, h2, g1, g2]
    · have g1 : (46 : Int) ≤ age := by omega
      simp [AGE_BRACKETS, inBracket, h1, h2, g1]

/-- Contacts CSV with ages 10, 35 and 60, one per bracket. -/
def c7Data : CrmData :=
  { fetchedAt := "", contactsCount := 3, companiesCount := 0,
    contactsCsv := "email,age\na@x.se,10\nb@x.se,35\nc@x.se,60",
    companiesCsv := "" }

/-- C7: every non-negative integer age lands in exactly one of the three
brackets (contiguous, non-overlapping, covering `[0, ∞)`); an unparseable age
contributes to no bucket; age segments are emitted only when at least two
buckets are non-empty, and then one segment per non-empty bucket; and the
ages 10, 35, 60 populate the three buckets with one member each. -/
theorem C7_age_bucketing :
    (∀ age : Int, 0 ≤ age →
      (AGE_BRACKETS.filter (fun b => inBracket age b)).length = 1)
    ∧ (∀ (g : List (String × List String)) (c : ContactRecord),
        ageOf c = none → ageStep g c = g)
    ∧ (∀ we : List ContactRecord, (we.foldl ageStep []).length < 2 →
        ageSegments we = [])
    ∧ (∀ we : List ContactRecord, 2 ≤ (we.foldl ageStep []).length →
        (ageSegments we).length = (we.foldl ageStep []).length)
    ∧ ((parseContactSegments (fun _ => none) c7Data).map
          (fun s => (s.name, s.emails))
        = [("All HubSpot Contacts", ["a@x.se", "b@x.se", "c@x.se"]),
           ("Age: Under 30", ["a@x.se"]), ("Age: 30–45", ["b@x.se"]),
           ("Age: Over 45", ["c@x.se"])]) := by
  refine ⟨age_bracket_unique, ?_, ?_, ?_, ?_⟩
  · intro g c hage
    simp only [ageStep, hage]
  · intro we h
    simp only [ageSegments]
    rw [if_neg (Nat.not_le.mpr h)]
  · intro we h
    simp only [ageSegments]
    rw [if_pos h, List.length_map]
  · decide

theorem C7_age_bucketing_witness :
    ((AGE_BRACKETS.filter (fun b => inBracket 35 b)).length = 1)
    ∧ (ageStep [] [("email", "a@x.se"), ("age", "young")] = [])
    ∧ (ageSegments [] = [])
    ∧ ((ageSegments [[("email", "a@x.se"), ("age", "10")],
          [("email", "b@x.se"), ("age", "40")]]).length
        = (([[("email", "a@x.se"), ("age", "10")],
            [("email", "b@x.se"), ("age", "40")]] : List ContactRecord).foldl
              ageStep []).length) := by
  refine ⟨?_, ?_, ?_, ?_⟩
  · exact C7_age_bucketing.1 35 (by decide)
  · exact C7_age_bucketing.2.1 [] [("email", "a@x.se"), ("age", "young")] (by decide)
  · exact C7_age_bucketing.2.2.1 [] (by decide)
  · exact C7_age_bucketing.2.2.2.1
      [[("email", "a@x.se"), ("age", "10")], [("email", "b@x.se"), ("age", "40")]]
      (by decide)

/-! ### Claim C8: tabular parser shape -/

lemma recSet_lookup_self (r : ContactRecord) (k v : String) :
    (recSet r k v).lookup k = some v := by
  induction r with
  | nil => simp [recSet, List.lookup]
  | cons p r ih =>
    obtain ⟨k0, v0⟩ := p
    by_cases h : k0 = k
    · subst h
      simp [recSet, List.lookup]
    · have hb : (k == k0) = false := by
        rw [beq_eq_false_iff_ne]
        exact fun hh => h hh.symm
      simp [recSet, h, List.lookup, hb, ih]

lemma recSet_lookup_other (r : ContactRecord) (k v k' : String) (h : k' ≠ k) :
    (recSet r k v).lookup k' = r.lookup k' := by
  induction r with
  | nil =>
    have hb : (k' == k) = false := by
      rw [beq_eq_false_iff_ne]
      exact h
    simp [recSet, List.lookup, hb]
  | cons p r ih =>
    obtain ⟨k0, v0⟩ := p
    by_cases h0 : k0 = k
    · subst h0
      have hb : (k' == k0) = false := by
        rw [beq_eq_false_iff_ne]
        exact h
      simp [recSet, List.lookup, hb]
    · simp [recSet, h0, List.lookup, ih]

lemma recSet_lookup_isSome (r : ContactRecord) (k v k' : String)
    (h : (r.lookup k').isSome = true) :
    ((recSet r k v).lookup k').isSome = true := by
  by_cases hk : k' = k
  · subst hk
    rw [recSet_lookup_self]
    rfl
  · rw [recSet_lookup_other r k v k' hk]
    exact h

lemma buildRecAux_preserves (headers : List String) :
    ∀ (obj : ContactRecord) (values : List String) (i : Nat) (k : String),
      (obj.lookup k).isSome = true →
      ((buildRecAux obj headers values i).lookup k).isSome = true := by
  induction headers with
  | nil =>
    intro obj values i k h
    simpa [buildRecAux] using h
  | cons hd hs ih =>
    intro obj values i k h
    simp only [buildRecAux]
    exact ih _ values (i + 1) k (recSet_lookup_isSome _ _ _ _ h)

lemma buildRecAux_mem_isSome (headers : List String) :
    ∀ (obj : ContactRecord) (values : List String) (i : Nat) (hd : String),
      hd ∈ headers →
      ((buildRecAux obj headers values i).lookup (jsTrim hd)).isSome = true := by
  induction headers with
  | nil =>
    intro _ _ _ _ h
    cases h
  | cons h0 hs ih =>
    intro obj values i hd hmem
    simp only [buildRecAux]
    rcases List.mem_cons.mp hmem with rfl | hmem2
    · apply buildRecAux_preserves
      rw [recSet_lookup_self]
      rfl
    · exact ih _ values (i + 1) hd hmem2

lemma buildRecAux_not_mem (headers : List String) :
    ∀ (obj : ContactRecord) (values : List String) (i : Nat) (k : String),
      k ∉ headers.map jsTrim →
      (buildRecAux obj headers values i).lookup k = obj.lookup k := by
  induction headers with
  | nil =>
    intro obj _ _ _ _
    rfl
  | cons h0 hs ih =>
    intro obj values i k hk
    simp only [List.map_cons, List.mem_cons] at hk
    push_neg at hk
    simp only [buildRecAux]
    rw [ih _ values (i + 1) k hk.2, recSet_lookup_other _ _ _ _ hk.1]

lemma buildRecAux_lookup_get (headers : List String) :
    ∀ (obj : ContactRecord) (values : List String) (i j : Nat)
      (hj : j < headers.length), (headers.map jsTrim).Nodup →
      (buildRecAux obj headers values i).lookup (jsTrim (headers.get ⟨j, hj⟩))
        = some (values.getD (i + j) "") := by
  induction headers with
  | nil =>
    intro _ _ _ j hj _
    cases hj
  | cons h0 hs ih =>
    intro obj values i j hj hnd
    simp only [List.map_cons, List.nodup_cons] at hnd
    cases j with
    | zero =>
      simp only [List.get, buildRecAux]
      rw [buildRecAux_not_mem hs _ values (i + 1) _ hnd.1, recSet_lookup_self]
      simp
    | succ j2 =>
      have hj2 : j2 < hs.length := Nat.succ_lt_succ_iff.mp hj
      have harith : i + (j2 + 1) = (i + 1) + j2 := by omega
      simp only [buildRecAux, List.get_cons_succ, harith]
      exact ih (recSet obj (jsTrim h0) (values.getD i "")) values (i + 1) j2 hj2 hnd.2

/-- C8: with fewer than two physical lines the parser yields no records; with
a header line and N data lines it yields exactly N records, each built from
the trimmed headers, in which every trimmed header is present as a key; and a
column a row does not reach maps to the empty string, never absent. -/
theorem C8_csv_parser_shape (csv : String) :
    ((jsSplitChar '\n' (jsTrim csv)).length < 2 → parseSimpleCsv csv = [])
    ∧ (∀ hdr rest, jsSplitChar '\n' (jsTrim csv) = hdr :: rest → rest ≠ [] →
        parseSimpleCsv csv
            = rest.map (fun line => buildRec (parseCsvRow hdr) (parseCsvRow line))
          ∧ (parseSimpleCsv csv).length = rest.length
          ∧ ∀ r ∈ parseSimpleCsv csv, ∀ hd ∈ parseCsvRow hdr,
              ((r.lookup (jsTrim hd)).isSome = true))
    ∧ (∀ (headers values : List String), (headers.map jsTrim).Nodup →
        ∀ j, ∀ hj : j < headers.length, values.length ≤ j →
          (buildRec headers values).lookup (jsTrim (headers.get ⟨j, hj⟩))
            = some "") := by
  refine ⟨?_, ?_, ?_⟩
  · intro h
    simp only [parseSimpleCsv]
    rw [if_pos h]
  · intro hdr rest heq hne
    have hlen : ¬(jsSplitChar '\n' (jsTrim csv)).length < 2 := by
      rw [heq]
      simp only [List.length_cons]
      have : rest.length ≠ 0 := fun h0 => hne (List.length_eq_zero.mp h0)
      omega
    have hmain : parseSimpleCsv csv
        = rest.map (fun line => buildRec (parseCsvRow hdr) (parseCsvRow line)) := by
      simp only [parseSimpleCsv]
      rw [if_neg hlen, heq]
    refine ⟨hmain, by rw [hmain, List.length_map], ?_⟩
    intro r hr hd hhd
    rw [hmain] at hr
    obtain ⟨line, _, rfl⟩ := List.mem_map.mp hr
    exact buildRecAux_mem_isSome (parseCsvRow hdr) [] (parseCsvRow line) 0 hd hhd
  · intro headers values hnd j hj hv
    rw [buildRec, buildRecAux_lookup_get headers [] values 0 j hj hnd, Nat.zero_add]
    have hnone : values[j]? = none := List.getElem?_eq_none (by omega)
    simp [List.getD, hnone]

theorem C8_csv_parser_shape_witness :
    parseSimpleCsv "only header" = []
    ∧ parseSimpleCsv "a,b\n1"
        = [buildRec (parseCsvRow "a,b") (parseCsvRow "1")]
    ∧ (buildRec ["a", "b"] ["1"]).lookup (jsTrim (["a", "b"].get ⟨1, by decide⟩))
        = some "" := by
  refine ⟨?_, ?_, ?_⟩
  · exact (C8_csv_parser_shape "only header").1 (by decide)
  · exact ((C8_csv_parser_shape "a,b\n1").2.1 "a,b" ["1"] (by decide) (by decide)).1
  · exact (C8_csv_parser_shape "x").2.2 ["a", "b"] ["1"] (by decide) 1 (by decide)
      (by decide)

/-! ### Claim C9: segment scorer -/

def swedenSegment : HubSpotSegment :=
  { id := "hs_country_sweden", name := "Sweden",
    filterLabel := "country: Sweden · 3 contacts", emails := [] }

/-- C9: the score equals the count of the kept tokens (length > 3) of
`name + " " + filterLabel` that occur as substrings of the lowercased target;
it is invariant under case changes of the target and under reordering of the
token list; and the Sweden segment scores 2 (hence at least 1) against
"Customers in Sweden". -/
theorem C9_score_matching :
    (∀ (seg : HubSpotSegment) (t : String),
      scoreSegment seg t = countMatches (scoreWords seg) (jsToLower t))
    ∧ (∀ (seg : HubSpotSegment) (t1 t2 : String), jsToLower t1 = jsToLower t2 →
        scoreSegment seg t1 = scoreSegment seg t2)
    ∧ (∀ (ws1 ws2 : List String) (t : String), ws1.Perm ws2 →
        countMatches ws1 t = countMatches ws2 t)
    ∧ scoreSegment swedenSegment "Customers in Sweden" = 2
    ∧ 1 ≤ scoreSegment swedenSegment "Customers in Sweden" := by
  refine ⟨fun seg t => rfl, ?_, ?_, by decide, by decide⟩
  · intro seg t1 t2 h
    simp only [scoreSegment, h]
  · intro ws1 ws2 t hperm
    simp only [countMatches]
    exact (hperm.filter _).length_eq

theorem C9_score_matching_witness :
    scoreSegment swedenSegment "SWEDEN here" = scoreSegment swedenSegment "sweden HERE"
    ∧ countMatches ["sweden", "contacts"] "x"
        = countMatches ["contacts", "sweden"] "x" := by
  constructor
  · exact C9_score_matching.2.1 swedenSegment "SWEDEN here" "sweden HERE" (by decide)
  · exact C9_score_matching.2.2.1 ["sweden", "contacts"] ["contacts", "sweden"] "x"
      (by decide)

/-! ### Claim C10: negative ages fall outside every bracket -/

lemma negative_age_no_bracket (age : Int) (h : age < 0) :
    AGE_BRACKETS.find? (fun b => inBracket age b) = none := by
  have h0 : ¬(0 : Int) ≤ age := by omega
  have h30 : ¬(30 : Int) ≤ age := by omega
  have h46 : ¬(46 : Int) ≤ age := by omega
  simp [AGE_BRACKETS, List.find?, inBracket, h0, h30, h46]

/-- Contacts CSV with a negative age alongside two bracketed ages, so that
age segments are emitted and the exclusion is observable end to end. -/
def c10Data : CrmData :=
  { fetchedAt := "", contactsCount := 3, companiesCount := 0,
    contactsCsv := "email,age\nneg@x.se,-5\na@x.se,10\nb@x.se,40",
    companiesCsv := "" }

/-- C10: a contact whose age parses to a negative integer is excluded from
every age bracket: no bracket matches a negative age, the age-loop iteration
for such a contact leaves the groups unchanged, and in a concrete export the
negative-age contact's email appears in no age segment even though age
segments are emitted. -/
theorem C10_negative_age_excluded :
    (∀ age : Int, age < 0 →
      AGE_BRACKETS.find? (fun b => inBracket age b) = none)
    ∧ (∀ (g : List (String × List String)) (c : ContactRecord) (age : Int),
        ageOf c = some age → age < 0 → ageStep g c = g)
    ∧ (∀ seg ∈ parseContactSegments (fun _ => none) c10Data,
        seg.id ≠ "hs_all" → "neg@x.se" ∉ seg.emails)
    ∧ (parseContactSegments (fun _ => none) c10Data).length = 3 := by
  refine ⟨negative_age_no_bracket, ?_, ?_, ?_⟩
  · intro g c age hage hneg
    rw [ageStep, hage]
    simp only [negative_age_no_bracket age hneg]
  · decide
  · decide

theorem C10_negative_age_excluded_witness :
    (AGE_BRACKETS.find? (fun b => inBracket (-5) b) = none)
    ∧ ageStep [] [("email", "neg@x.se"), ("age", "-5")] = [] := by
  constructor
  · exact C10_negative_age_excluded.1 (-5) (by decide)
  · exact C10_negative_age_excluded.2.1 [] [("email", "neg@x.se"), ("age", "-5")]
      (-5) (by decide) (by decide)

end Mcm
